import Mathlib

set_option maxHeartbeats 1000000

/-!
Shallow embedding of the DCC decoding pipeline of `Samples/parse_buf.py`
(SignalBox repository): edge extraction, duration pairing, bit
classification, byte framing, checksum validation and command
interpretation, together with theorems settling the specification claims.

Conventions:
* a sample is an `Int`; a polarity is `Bool` (`true` = non-negative), with
  `Option Bool` used where the Python code uses `None` as the initial
  "no polarity yet" value;
* a bit is `Option Bool`: `some true` = One, `some false` = Zero,
  `none` = Unknown (Python `True` / `False` / `None`);
* generators become functions from input lists to output lists;
* the unbounded `while` loop of `print_packet` is given an explicit fuel
  argument; running out of fuel is reported as a distinct outcome, so that
  "no amount of fuel suffices" expresses non-termination of the loop.
-/

/-- State-passing loop of `extract_waveform`: `lp` is `last_polarity`
(`none` before the first sample), `dur` is `duration`.  On every sample the
polarity is `sample ≥ 0`; a polarity change emits the finished run (when
one exists) and restarts the counter at 1; exhaustion emits the current
`(last_polarity, duration)` pair unconditionally (the `for`/`else` in the
Python source). -/
def waveform_go : Option Bool → ℕ → List Int → List (Option Bool × ℕ)
  | lp, dur, [] => [(lp, dur)]
  | lp, dur, s :: rest =>
    if some (decide (0 ≤ s)) = lp then
      waveform_go lp (dur + 1) rest
    else
      match lp with
      | some q => (some q, dur) :: waveform_go (some (decide (0 ≤ s))) 1 rest
      | none => waveform_go (some (decide (0 ≤ s))) 1 rest

/-- `extract_waveform` from `parse_buf.py`: samples to signal runs. -/
def extract_waveform (samples : List Int) : List (Option Bool × ℕ) :=
  waveform_go none 0 samples

/-- Loop of `pair_durations`: `hd` is the pending `high_duration` slot. -/
def pair_go : Option ℕ → List (Option Bool × ℕ) → List (ℕ × ℕ)
  | _, [] => []
  | hd, (p, d) :: rest =>
    if p = some true then pair_go (some d) rest
    else
      match hd with
      | some h => (h, d) :: pair_go none rest
      | none => pair_go none rest

/-- `pair_durations` from `parse_buf.py`: runs to (high, low) pairs. -/
def pair_durations (runs : List (Option Bool × ℕ)) : List (ℕ × ℕ) :=
  pair_go none runs

/-- The per-pair classification performed inside `extract_bits`:
One when `high` lies in the window `[52 / t, 64 / t + 1]` (integer
division, as in the Python 2 source), else Zero when both scaled durations
reach 95 µs, else Unknown. -/
def classify_pair (sample_dur high low : ℕ) : Option Bool :=
  if 52 / sample_dur ≤ high ∧ high ≤ 64 / sample_dur + 1 then some true
  else if 95 ≤ high * sample_dur ∧ 95 ≤ low * sample_dur then some false
  else none

/-- `extract_bits` from `parse_buf.py` (statistics side effects dropped). -/
def extract_bits (sample_dur : ℕ) (durations : List (ℕ × ℕ)) : List (Option Bool) :=
  durations.map fun d => classify_pair sample_dur d.1 d.2

/-- State of the frame decoder `decode`: either seeking a preamble with the
current count of consecutive One bits, or assembling a byte (`bytes` are the
completed bytes of the packet, `n` the number of bits already in `b`). -/
inductive DState where
  | seek (preamble_length : ℕ) : DState
  | byte (bytes : List ℕ) (n : ℕ) (b : ℕ) : DState

/-- The frame decoder `decode` of `parse_buf.py` as a state machine over the
bit list.  Faithful to the source: in seek state a One increments the count;
a falsy bit (Zero or Unknown) with count < 10 resets the count to 0
("garbage"); with count ≥ 10 a Zero is the start bit and byte assembly
begins, while an Unknown is "corrupt packet at start" and seeking continues
with the count kept.  In byte state an Unknown is "corrupt packet" and
seeking restarts with count 0; the first 8 bits are shifted into the byte
MSB-first; the 9th bit appends the byte and either emits the packet and
re-seeks with count 1 (bit One) or starts another byte (bit Zero).
Exhaustion emits nothing ("garbage/partial packet at end"). -/
def decode_go : DState → List (Option Bool) → List (List ℕ)
  | _, [] => []
  | DState.seek pl, bit :: rest =>
    match bit with
    | some true => decode_go (DState.seek (pl + 1)) rest
    | some false =>
      if 10 ≤ pl then decode_go (DState.byte [] 0 0) rest
      else decode_go (DState.seek 0) rest
    | none =>
      if 10 ≤ pl then decode_go (DState.seek pl) rest
      else decode_go (DState.seek 0) rest
  | DState.byte bytes n b, bit :: rest =>
    match bit with
    | none => decode_go (DState.seek 0) rest
    | some bv =>
      if n < 8 then
        decode_go (DState.byte bytes (n + 1) ((b <<< 1) ||| (if bv then 1 else 0))) rest
      else if bv then (bytes ++ [b]) :: decode_go (DState.seek 1) rest
      else decode_go (DState.byte (bytes ++ [b]) 0 0) rest

/-- `decode` from `parse_buf.py`: a bit sequence to the emitted packets. -/
def decode (bits : List (Option Bool)) : List (List ℕ) :=
  decode_go (DState.seek 0) bits

/-- `check_packet` from `parse_buf.py`: XOR-reduce all bytes but the last
and compare with the last byte.  (The source indexes `packet[-1]`; every
caller passes a non-empty packet, and the claims about this function are
stated for non-empty packets only.) -/
def check_packet (packet : List ℕ) : Bool :=
  (List.foldl (fun a b => a ^^^ b) 0 packet.dropLast) == packet.getLastD 0

/-- `print_loco` from `parse_buf.py`. -/
def print_loco (loco : ℕ) (text : String) : String :=
  if loco = 0 then "All: " ++ text
  else "Loco " ++ toString loco ++ ": " ++ text

/-- One byte rendered as `'{0:08b}'.format(byte)` (bytes are < 256 wherever
this is used). -/
def byte_bin (b : ℕ) : String :=
  String.mk ((List.range 8).map fun i => if b.testBit (7 - i) then '1' else '0')

/-- `unknown_packet` from `parse_buf.py`: the raw binary dump line. -/
def unknown_packet (packet : List ℕ) : String :=
  String.intercalate " " (packet.map byte_bin)

/-- The instruction-decoding `while len(instructions)` loop of
`print_packet`, with fuel bounding the number of iterations: `none` means
the fuel ran out before the loop terminated, `some lines` the printed lines
of a terminating run.  Each branch mirrors the source: advanced (001,
needing two bytes and sub-instruction 11111), 28-step speed (010/011),
function group one (100), function group two (101), the broadcast
Reset All branch (which consumes no instruction byte, exactly as in the
source), and otherwise the `unknown_packet` dump after which the loop
returns. -/
def instrs_loop (packet : List ℕ) (loco : ℕ) : ℕ → List ℕ → Option (List String)
  | _, [] => some []
  | 0, _ :: _ => none
  | fuel + 1, i0 :: irest =>
    if i0 >>> 5 = 1 ∧ 2 ≤ (i0 :: irest).length then
      if i0 &&& 31 = 31 then
        let i1 := irest.headD 0
        let fwd := i1 &&& 128
        let spd := i1 &&& 127
        let line :=
          if spd = 0 then "Stop"
          else if spd = 1 then "E-Stop"
          else (if fwd ≠ 0 then "fwd" else "rev") ++ " " ++ toString (spd - 1) ++ "/126"
        Option.map (fun ls => print_loco loco line :: ls)
          (instrs_loop packet loco fuel irest.tail)
      else some [unknown_packet packet]
    else if i0 >>> 5 = 2 ∨ i0 >>> 5 = 3 then
      let fwd := i0 &&& 32
      let spd := ((i0 &&& 15) <<< 1) ||| (if i0 &&& 16 ≠ 0 then 1 else 0)
      let line :=
        if spd = 0 then "Stop"
        else if spd = 1 then "Stop (I)"
        else if spd = 2 then "E-Stop"
        else if spd = 3 then "E-Stop (I)"
        else (if fwd ≠ 0 then "fwd" else "rev") ++ " " ++ toString (spd - 3) ++ "/28"
      Option.map (fun ls => print_loco loco line :: ls)
        (instrs_loop packet loco fuel irest)
    else if i0 >>> 5 = 4 then
      let f := (if i0 &&& 16 ≠ 0 then ["FL"] else [])
            ++ (if i0 &&& 1 ≠ 0 then ["F1"] else [])
            ++ (if i0 &&& 2 ≠ 0 then ["F2"] else [])
            ++ (if i0 &&& 4 ≠ 0 then ["F3"] else [])
            ++ (if i0 &&& 8 ≠ 0 then ["F4"] else [])
      Option.map (fun ls => print_loco loco ("FG1 " ++ String.intercalate " " f) :: ls)
        (instrs_loop packet loco fuel irest)
    else if i0 >>> 5 = 5 then
      let f :=
        if i0 &&& 16 ≠ 0 then
          (if i0 &&& 1 ≠ 0 then ["F5"] else [])
          ++ (if i0 &&& 2 ≠ 0 then ["F6"] else [])
          ++ (if i0 &&& 4 ≠ 0 then ["F7"] else [])
          ++ (if i0 &&& 8 ≠ 0 then ["F8"] else [])
        else
          (if i0 &&& 1 ≠ 0 then ["F9"] else [])
          ++ (if i0 &&& 2 ≠ 0 then ["F10"] else [])
          ++ (if i0 &&& 4 ≠ 0 then ["F11"] else [])
          ++ (if i0 &&& 8 ≠ 0 then ["F12"] else [])
      Option.map (fun ls => print_loco loco ("FG2 " ++ String.intercalate " " f) :: ls)
        (instrs_loop packet loco fuel irest)
    else if loco = 0 ∧ i0 = 0 then
      Option.map (fun ls => print_loco loco "Reset All" :: ls)
        (instrs_loop packet loco fuel (i0 :: irest))
    else some [unknown_packet packet]

/-- Outcome of `print_packet`: an uncaught `IndexError`, an
instruction-loop that did not terminate within the given fuel, or the list
of printed lines. -/
inductive PResult where
  | indexError : PResult
  | noFuel : PResult
  | ok (lines : List String) : PResult
deriving DecidableEq

/-- Lift an instruction-loop outcome into a `PResult`. -/
def loop_result (r : Option (List String)) : PResult :=
  match r with
  | none => PResult.noFuel
  | some ls => PResult.ok ls

/-- `print_packet` from `parse_buf.py` (called on the checksum-stripped
packet).  Address dispatch on the first byte, faithful to the source,
including the 14-bit branch computing `packet[0] & 0b00111111 | packet[1]`
with no shift, and the `IndexError` raised by `packet[0]` when the packet
is empty. -/
def print_packet (fuel : ℕ) (packet : List ℕ) : PResult :=
  match packet with
  | [] => PResult.indexError
  | p0 :: prest =>
    if p0 = 0 then
      loop_result (instrs_loop (p0 :: prest) 0 fuel prest)
    else if p0 = 255 then
      if (p0 :: prest).length = 2 ∧ prest.headD 0 = 0 then PResult.ok ["Idle"]
      else PResult.ok [unknown_packet (p0 :: prest)]
    else if p0 >>> 6 = 3 ∧ 1 < (p0 :: prest).length then
      loop_result (instrs_loop (p0 :: prest) ((p0 &&& 63) ||| prest.headD 0) fuel prest.tail)
    else if p0 >>> 6 = 2 then PResult.ok [unknown_packet (p0 :: prest)]
    else if p0 >>> 7 = 0 then
      loop_result (instrs_loop (p0 :: prest) p0 fuel prest)
    else PResult.ok [unknown_packet (p0 :: prest)]

/-- The 8 bits of a byte, most significant first (the synthetic encoder of
the round-trip property). -/
def bits_of_byte (b : ℕ) : List Bool :=
  (List.range 8).map fun i => b.testBit (7 - i)

/-- Shift a list of bits into an accumulator MSB-first, exactly as the
frame decoder assembles a byte. -/
def push_bits (b : ℕ) (bs : List Bool) : ℕ :=
  bs.foldl (fun a bit => (a <<< 1) ||| (if bit then 1 else 0)) b

/-- Body of the synthetic bitstream of the round-trip property: each byte
MSB-first, a Zero continuation bit between bytes, and a final One stop bit
(the polarity the frame decoder actually implements). -/
def encode_body : List ℕ → List (Option Bool)
  | [] => []
  | [b] => (bits_of_byte b).map some ++ [some true]
  | b :: rest => (bits_of_byte b).map some ++ some false :: encode_body rest

/-- The synthetic bitstream of the round-trip property: a preamble of 14
One bits, a Zero start bit, then the framed bytes. -/
def encode_packet (bytes : List ℕ) : List (Option Bool) :=
  List.replicate 14 (some true) ++ some false :: encode_body bytes

/-! ### Helper lemmas about the edge extractor -/

/-- Durations of the runs produced by `waveform_go` add the pending
duration to the number of remaining samples (the pending duration is 0
whenever no polarity has been seen yet). -/
theorem waveform_go_sum : ∀ (xs : List Int) (lp : Option Bool) (d : ℕ),
    (lp = none → d = 0) →
    ((waveform_go lp d xs).map Prod.snd).sum = d + xs.length := by
  intro xs
  induction xs with
  | nil =>
    intro lp d _
    simp [waveform_go]
  | cons s rest ih =>
    intro lp d hd
    cases lp with
    | none =>
      have h0 : d = 0 := hd rfl
      subst h0
      simp only [waveform_go, reduceCtorEq, if_false]
      rw [ih (some (decide (0 ≤ s))) 1 (by simp)]
      simp [Nat.add_comm]
    | some q =>
      by_cases hc : decide (0 ≤ s) = q
      · simp only [waveform_go, hc, if_true]
        rw [ih (some q) (d + 1) (by simp)]
        simp
        omega
      · have hne : ¬ (some (decide (0 ≤ s)) = some q) := by simpa using hc
        simp only [waveform_go, hne, if_false]
        simp only [List.map_cons, List.sum_cons]
        rw [ih (some (decide (0 ≤ s))) 1 (by simp)]
        simp
        omega

/-- When a polarity has been seen, the first run produced by `waveform_go`
carries that polarity. -/
theorem waveform_go_head : ∀ (xs : List Int) (q : Bool) (d : ℕ),
    ∃ d', (waveform_go (some q) d xs).head? = some (some q, d') := by
  intro xs
  induction xs with
  | nil =>
    intro q d
    exact ⟨d, rfl⟩
  | cons s rest ih =>
    intro q d
    by_cases hc : decide (0 ≤ s) = q
    · have heq : (some (decide (0 ≤ s)) : Option Bool) = some q := by simpa using hc
      simp only [waveform_go, heq, if_true]
      exact ih q (d + 1)
    · have hne : ¬ (some (decide (0 ≤ s)) = some q) := by simpa using hc
      simp only [waveform_go, hne, if_false]
      exact ⟨d, rfl⟩

/-- Consecutive runs produced by `waveform_go` never share a polarity. -/
theorem waveform_go_chain : ∀ (xs : List Int) (lp : Option Bool) (d : ℕ),
    List.Chain' (fun a b : Option Bool × ℕ => a.1 ≠ b.1) (waveform_go lp d xs) := by
  intro xs
  induction xs with
  | nil =>
    intro lp d
    simp [waveform_go]
  | cons s rest ih =>
    intro lp d
    cases lp with
    | none =>
      simp only [waveform_go, reduceCtorEq, if_false]
      exact ih (some (decide (0 ≤ s))) 1
    | some q =>
      by_cases hc : decide (0 ≤ s) = q
      · have heq : (some (decide (0 ≤ s)) : Option Bool) = some q := by simpa using hc
        simp only [waveform_go, heq, if_true]
        exact ih (some q) (d + 1)
      · have hne : ¬ (some (decide (0 ≤ s)) = some q) := by simpa using hc
        simp only [waveform_go, hne, if_false]
        rw [List.chain'_cons']
        refine ⟨?_, ih (some (decide (0 ≤ s))) 1⟩
        intro y hy
        obtain ⟨d', hd'⟩ := waveform_go_head rest (decide (0 ≤ s)) 1
        rw [hd'] at hy
        cases hy
        simpa using fun h => hc h.symm

/-! ### Helper lemmas about the frame decoder -/

/-- In seek state, a block of `k` One bits adds `k` to the preamble count. -/
theorem decode_go_preamble : ∀ (k pl : ℕ) (rest : List (Option Bool)),
    decode_go (DState.seek pl) (List.replicate k (some true) ++ rest) =
    decode_go (DState.seek (pl + k)) rest := by
  intro k
  induction k with
  | zero =>
    intro pl rest
    simp
  | succ n ih =>
    intro pl rest
    rw [List.replicate_succ, List.cons_append]
    show decode_go (DState.seek (pl + 1)) (List.replicate n (some true) ++ rest) = _
    rw [ih (pl + 1) rest]
    have h : pl + 1 + n = pl + (n + 1) := by omega
    rw [h]

/-- Reading data bits: feeding `bs` (as valid bits) to a byte in progress
shifts them all into the byte. -/
theorem decode_go_bits : ∀ (bs : List Bool) (acc : List ℕ) (n b : ℕ)
    (rest : List (Option Bool)), n + bs.length = 8 →
    decode_go (DState.byte acc n b) (bs.map some ++ rest) =
    decode_go (DState.byte acc 8 (push_bits b bs)) rest := by
  intro bs
  induction bs with
  | nil =>
    intro acc n b rest h
    simp only [List.length_nil, Nat.add_zero] at h
    subst h
    simp [push_bits]
  | cons x xs ih =>
    intro acc n b rest h
    have hn : n < 8 := by simp at h; omega
    simp only [List.map_cons, List.cons_append]
    show decode_go (DState.byte acc n b) (some x :: (xs.map some ++ rest)) = _
    simp only [decode_go, if_pos hn]
    rw [ih acc (n + 1) ((b <<< 1) ||| (if x then 1 else 0)) rest (by simp at h ⊢; omega)]
    rfl

set_option maxRecDepth 20000 in
/-- The 8 MSB-first bits of a byte below 256 reassemble to that byte. -/
theorem push_bits_byte : ∀ b : ℕ, b < 256 → push_bits 0 (bits_of_byte b) = b := by
  decide

/-- `bits_of_byte` always produces 8 bits. -/
theorem bits_of_byte_length (b : ℕ) : (bits_of_byte b).length = 8 := by
  simp [bits_of_byte]

/-- Reading a whole encoded packet body: each byte is appended, and the
final One stop bit emits the packet and re-enters preamble search with the
count already at 1. -/
theorem decode_go_body : ∀ (bytes acc : List ℕ) (rest : List (Option Bool)),
    bytes ≠ [] → (∀ x ∈ bytes, x < 256) →
    decode_go (DState.byte acc 0 0) (encode_body bytes ++ rest) =
    (acc ++ bytes) :: decode_go (DState.seek 1) rest := by
  intro bytes
  induction bytes with
  | nil =>
    intro acc rest h _
    exact absurd rfl h
  | cons b bs ih =>
    intro acc rest _ hlt
    have hb : b < 256 := hlt b (by simp)
    cases bs with
    | nil =>
      show decode_go (DState.byte acc 0 0)
          (((bits_of_byte b).map some ++ [some true]) ++ rest) = _
      rw [List.append_assoc]
      rw [decode_go_bits (bits_of_byte b) acc 0 0 ([some true] ++ rest)
        (by rw [bits_of_byte_length])]
      rw [push_bits_byte b hb]
      show decode_go (DState.byte acc 8 b) (some true :: rest) = _
      simp [decode_go]
    | cons b2 bs2 =>
      show decode_go (DState.byte acc 0 0)
          (((bits_of_byte b).map some ++ some false :: encode_body (b2 :: bs2)) ++ rest) = _
      rw [List.append_assoc]
      rw [decode_go_bits (bits_of_byte b) acc 0 0
        (some false :: encode_body (b2 :: bs2) ++ rest) (by rw [bits_of_byte_length])]
      rw [push_bits_byte b hb]
      show decode_go (DState.byte (acc ++ [b]) 0 0) (encode_body (b2 :: bs2) ++ rest) = _
      rw [ih (acc ++ [b]) rest (by simp) (fun x hx => hlt x (by simp [hx]))]
      simp

/-! ### Helper lemmas about the checksum -/

/-- Folding XOR from an arbitrary accumulator factors the accumulator out. -/
theorem foldl_xor_init : ∀ (l : List ℕ) (a : ℕ),
    List.foldl (fun x y => x ^^^ y) a l = a ^^^ List.foldl (fun x y => x ^^^ y) 0 l := by
  intro l
  induction l with
  | nil =>
    intro a
    simp
  | cons x xs ih =>
    intro a
    simp only [List.foldl_cons]
    rw [ih (a ^^^ x), ih (0 ^^^ x), Nat.zero_xor, Nat.xor_assoc]

/-- XOR-fold of a list with one distinguished element. -/
theorem foldl_xor_middle (pre post : List ℕ) (x : ℕ) :
    List.foldl (fun a b => a ^^^ b) 0 (pre ++ x :: post) =
    (List.foldl (fun a b => a ^^^ b) 0 pre ^^^ x) ^^^
      List.foldl (fun a b => a ^^^ b) 0 post := by
  rw [List.foldl_append, List.foldl_cons, foldl_xor_init post]

/-- Rearranging a XOR of four terms. -/
theorem xor_shuffle (a x m p : ℕ) :
    (a ^^^ (x ^^^ m)) ^^^ p = ((a ^^^ x) ^^^ p) ^^^ m := by
  rw [← Nat.xor_assoc a x m, Nat.xor_assoc (a ^^^ x) m p, Nat.xor_comm m p,
    ← Nat.xor_assoc]

/-- `check_packet` on `data ++ [c]` compares the XOR of `data` with `c`. -/
theorem check_packet_append (data : List ℕ) (c : ℕ) :
    check_packet (data ++ [c]) =
    (List.foldl (fun a b => a ^^^ b) 0 data == c) := by
  unfold check_packet
  rw [List.dropLast_concat, List.getLastD_concat]

/-! ### Helper lemmas about the command interpreter -/

/-- An empty instruction list ends the interpreter loop at once, with any
fuel. -/
theorem instrs_loop_nil (packet : List ℕ) (loco fuel : ℕ) :
    instrs_loop packet loco fuel [] = some [] := by
  cases fuel <;> rfl

/-- On the broadcast packet 0x00 0x00 the Reset All branch never consumes
its instruction byte, so the interpreter loop exhausts any amount of
fuel. -/
theorem instrs_loop_reset : ∀ fuel : ℕ, instrs_loop [0, 0] 0 fuel [0] = none := by
  intro fuel
  induction fuel with
  | zero => rfl
  | succ n ih =>
    have h : instrs_loop [0, 0] 0 (n + 1) [0] =
        Option.map (fun ls => print_loco 0 "Reset All" :: ls)
          (instrs_loop [0, 0] 0 n [0]) := rfl
    rw [h, ih]
    rfl

/-! ### The claims -/

/-- Claim C1, corrected.  In Reading-Bytes, after the 8 data bits of a
byte the 9th bit is the "more bytes" flag, but with the polarities the
reverse of the claim's: a Zero bit appends the completed byte and framing
continues with another byte of the same packet, while a One bit appends
the completed byte, emits the completed packet and returns to preamble
seeking with the count starting at 1 (that terminating One counted as the
first bit of the next preamble). -/
theorem claim_C1 (acc : List ℕ) (b : ℕ) (rest : List (Option Bool)) :
    decode_go (DState.byte acc 8 b) (some false :: rest) =
      decode_go (DState.byte (acc ++ [b]) 0 0) rest ∧
    decode_go (DState.byte acc 8 b) (some true :: rest) =
      (acc ++ [b]) :: decode_go (DState.seek 1) rest := by
  constructor <;> simp [decode_go]

/-- Counterexample to claim C1 as stated: after a preamble, a start bit
and the 8 data bits of the byte 0x00, a terminating Zero does not emit the
packet [[0x00]] (the decoder keeps framing and the stream ends mid-packet,
yielding nothing), while a terminating One does emit it — the opposite of
the claim's reading of the flag. -/
theorem claim_C1_counterexample :
    decode (List.replicate 10 (some true) ++ some false ::
      (List.replicate 8 (some false) ++ [some false])) ≠ [[0]] ∧
    decode (List.replicate 10 (some true) ++ some false ::
      (List.replicate 8 (some false) ++ [some true])) = [[0]] := by
  decide

/-- Claim C2, corrected.  Round-trip holds for the encoding the decoder
actually implements: for every non-empty byte sequence with bytes below
256, a preamble of 14 One bits, a Zero start bit, each byte MSB-first with
a Zero continuation bit between bytes and a final One stop bit decodes to
exactly the original byte sequence as a single emitted packet. -/
theorem claim_C2 (bytes : List ℕ) (h1 : bytes ≠ []) (h2 : ∀ x ∈ bytes, x < 256) :
    decode (encode_packet bytes) = [bytes] := by
  unfold decode encode_packet
  rw [decode_go_preamble 14 0 (some false :: encode_body bytes)]
  have hstep : decode_go (DState.seek (0 + 14)) (some false :: encode_body bytes) =
      decode_go (DState.byte [] 0 0) (encode_body bytes) := by
    simp [decode_go]
  rw [hstep]
  have hbody := decode_go_body bytes [] [] h1 h2
  rw [List.append_nil] at hbody
  rw [hbody]
  simp [decode_go]

/-- Witness for the round-trip theorem at the packet 0x03 0x65 0x66. -/
theorem claim_C2_witness : decode (encode_packet [3, 101, 102]) = [[3, 101, 102]] :=
  claim_C2 [3, 101, 102] (by decide) (by decide)

/-- Counterexample to claim C2 as stated: with a final stop bit Zero, as
the claim words it, the byte sequence [0x00] does not round-trip — the
decoder reads the Zero as a byte-continuation flag, the stream ends
mid-packet, and nothing is emitted instead of [[0x00]]. -/
theorem claim_C2_counterexample :
    decode (List.replicate 14 (some true) ++ some false ::
      ((bits_of_byte 0).map some ++ [some false])) ≠ [[0]] := by
  decide

/-- Claim C3, a code bug.  The packet 0x00 0x00 0x00 does pass checksum
validation, but the Command Interpreter does not terminate on it: the
Reset All branch never consumes its instruction byte, so the loop prints
"All: Reset All" forever — no amount of fuel makes it finish, let alone
produce exactly one line. -/
theorem claim_C3 :
    check_packet [0, 0, 0] = true ∧
    ∀ fuel : ℕ, print_packet fuel [0, 0] = PResult.noFuel := by
  refine ⟨by decide, fun fuel => ?_⟩
  have h : print_packet fuel [0, 0] = loop_result (instrs_loop [0, 0] 0 fuel [0]) := rfl
  rw [h, instrs_loop_reset fuel]
  rfl

/-- Claim C4, a code bug.  The Frame Decoder can emit the one-byte packet
[0x00] (here produced from a synthetic bitstream), the packet passes
checksum validation, and the Command Interpreter then raises an
IndexError: stripping the checksum leaves an empty byte list and
`packet[0]` is evaluated on it.  Decoding therefore does not run to
completion on every input, contrary to the claim. -/
theorem claim_C4 :
    decode (encode_packet [0]) = [[0]] ∧
    check_packet [0] = true ∧
    ∀ fuel : ℕ, print_packet fuel (List.dropLast [0]) = PResult.indexError := by
  refine ⟨by decide, by decide, fun fuel => rfl⟩

/-- Claim C5, corrected.  The packet 0x03 0x65 0x66 passes checksum and
the interpreter terminates with a single line, but the line is
"Loco 3: fwd 7/28": instruction byte 0x65 gives combined 28-step speed
value (0b0101 << 1) | 0 = 10, hence forward step 10 - 3 = 7, not 2. -/
theorem claim_C5 :
    check_packet [3, 101, 102] = true ∧
    ∀ fuel : ℕ, print_packet (fuel + 1) [3, 101] = PResult.ok ["Loco 3: fwd 7/28"] := by
  refine ⟨by decide, fun fuel => ?_⟩
  have h1 : print_packet (fuel + 1) [3, 101] =
      loop_result (instrs_loop [3, 101] 3 (fuel + 1) [101]) := rfl
  have h2 : instrs_loop [3, 101] 3 (fuel + 1) [101] =
      Option.map (fun ls => "Loco 3: fwd 7/28" :: ls)
        (instrs_loop [3, 101] 3 fuel []) := rfl
  rw [h1, h2, instrs_loop_nil]
  rfl

/-- Counterexample to claim C5 as stated: the interpreter's line for the
validated, checksum-stripped packet 0x03 0x65 is not "Loco 3: fwd 2/28". -/
theorem claim_C5_counterexample :
    print_packet 2 [3, 101] ≠ PResult.ok ["Loco 3: fwd 2/28"] := by
  decide

/-- Claim C6, a code bug.  For a first byte with top bits 11 the source
computes `packet[0] & 0b00111111 | packet[1]` with no left shift, so on
the checksum-stripped packet 0xC1 0x02 0x65 the target address is
(0xC1 & 0x3F) | 0x02 = 3 and the output line says "Loco 3", whereas the
claimed 14-bit combination ((0xC1 & 0x3F) << 8) | 0x02 is 258.  (The
instruction bytes are indeed decoded from the third byte on.) -/
theorem claim_C6 :
    ((193 &&& 63) <<< 8) ||| 2 = 258 ∧
    (193 &&& 63) ||| 2 = 3 ∧
    check_packet [193, 2, 101, 166] = true ∧
    ∀ fuel : ℕ, print_packet (fuel + 1) [193, 2, 101] = PResult.ok ["Loco 3: fwd 7/28"] := by
  refine ⟨by decide, by decide, by decide, fun fuel => ?_⟩
  have h1 : print_packet (fuel + 1) [193, 2, 101] =
      loop_result (instrs_loop [193, 2, 101] 3 (fuel + 1) [101]) := rfl
  have h2 : instrs_loop [193, 2, 101] 3 (fuel + 1) [101] =
      Option.map (fun ls => "Loco 3: fwd 7/28" :: ls)
        (instrs_loop [193, 2, 101] 3 fuel []) := rfl
  rw [h1, h2, instrs_loop_nil]
  rfl

/-- Claim C7, a code bug.  On an empty sample sequence the Edge Extractor
does not produce an empty run sequence: the unconditional final flush
emits the single degenerate run (None, 0), whose duration is 0 (not ≥ 1)
and whose polarity is not a boolean. -/
theorem claim_C7 :
    extract_waveform [] = [((none : Option Bool), 0)] ∧
    extract_waveform [] ≠ [] := by
  exact ⟨rfl, by decide⟩

/-- Claim C8, confirmed.  For every duration pair and positive timebase,
the Bit Classifier returns One exactly on the window
[52 / t, 64 / t + 1] (integer division), otherwise Zero exactly when both
scaled durations reach 95 µs, otherwise Unknown; at timebase 1 the pairs
(58, 58), (100, 100) and (30, 30) classify as One, Zero and Unknown. -/
theorem claim_C8 (t high low : ℕ) (h : 0 < t) :
    (classify_pair t high low = some true ↔
      (52 / t ≤ high ∧ high ≤ 64 / t + 1)) ∧
    (classify_pair t high low = some false ↔
      (¬(52 / t ≤ high ∧ high ≤ 64 / t + 1) ∧ 95 ≤ high * t ∧ 95 ≤ low * t)) ∧
    (classify_pair t high low = none ↔
      (¬(52 / t ≤ high ∧ high ≤ 64 / t + 1) ∧ ¬(95 ≤ high * t ∧ 95 ≤ low * t))) ∧
    extract_bits 1 [(58, 58)] = [some true] ∧
    extract_bits 1 [(100, 100)] = [some false] ∧
    extract_bits 1 [(30, 30)] = [(none : Option Bool)] := by
  refine ⟨?_, ?_, ?_, by decide, by decide, by decide⟩ <;>
    · unfold classify_pair
      split_ifs with h1 h2 <;> simp_all

/-- Witness for the classifier characterization at timebase 1 on the pair
(58, 58). -/
theorem claim_C8_witness :
    (classify_pair 1 58 58 = some true ↔
      (52 / 1 ≤ 58 ∧ 58 ≤ 64 / 1 + 1)) ∧
    (classify_pair 1 58 58 = some false ↔
      (¬(52 / 1 ≤ 58 ∧ 58 ≤ 64 / 1 + 1) ∧ 95 ≤ 58 * 1 ∧ 95 ≤ 58 * 1)) ∧
    (classify_pair 1 58 58 = none ↔
      (¬(52 / 1 ≤ 58 ∧ 58 ≤ 64 / 1 + 1) ∧ ¬(95 ≤ 58 * 1 ∧ 95 ≤ 58 * 1))) ∧
    extract_bits 1 [(58, 58)] = [some true] ∧
    extract_bits 1 [(100, 100)] = [some false] ∧
    extract_bits 1 [(30, 30)] = [(none : Option Bool)] :=
  claim_C8 1 58 58 (by decide)

/-- Claim C9, confirmed.  A non-empty packet `data ++ [c]` validates
exactly when the XOR of `data` equals `c`; consequently a packet whose
last byte is that XOR validates, and flipping any one bit (position `j`)
of any data byte (`x`, between `pre` and `post`) without updating the
checksum makes validation fail. -/
theorem claim_C9 (data pre post : List ℕ) (x c j : ℕ) (hj : j < 8) :
    (check_packet (data ++ [c]) = true ↔
      List.foldl (fun a b => a ^^^ b) 0 data = c) ∧
    (check_packet ((pre ++ x :: post) ++ [c]) = true →
      check_packet ((pre ++ (x ^^^ 2 ^ j) :: post) ++ [c]) = false) := by
  constructor
  · simp [check_packet_append]
  · intro hv
    rw [check_packet_append] at hv
    have hv' : List.foldl (fun a b => a ^^^ b) 0 (pre ++ x :: post) = c := by
      simpa using hv
    have hmid : List.foldl (fun a b => a ^^^ b) 0 (pre ++ (x ^^^ 2 ^ j) :: post) =
        List.foldl (fun a b => a ^^^ b) 0 (pre ++ x :: post) ^^^ 2 ^ j := by
      rw [foldl_xor_middle, foldl_xor_middle, xor_shuffle]
    rw [check_packet_append, hmid, hv', Bool.eq_false_iff]
    intro hbe
    have heq : c ^^^ 2 ^ j = c := by simpa using hbe
    have h2 := congrArg (fun z => c ^^^ z) heq
    simp only [← Nat.xor_assoc, Nat.xor_self, Nat.zero_xor] at h2
    exact absurd h2 (by positivity : (0 : ℕ) < 2 ^ j).ne'

/-- Witness for the checksum theorem on the packet 0x03 0x65 0x66,
flipping bit 0 of the first data byte. -/
theorem claim_C9_witness :
    (check_packet ([3, 101] ++ [102]) = true ↔
      List.foldl (fun a b => a ^^^ b) 0 [3, 101] = 102) ∧
    (check_packet (([] ++ 3 :: [101]) ++ [102]) = true →
      check_packet (([] ++ (3 ^^^ 2 ^ 0) :: [101]) ++ [102]) = false) :=
  claim_C9 [3, 101] [] [101] 3 102 0 (by decide)

/-- Claim C10, confirmed.  The durations of the runs produced by the Edge
Extractor always sum to the number of input samples, and no two
consecutive produced runs share a polarity. -/
theorem claim_C10 (samples : List Int) :
    ((extract_waveform samples).map Prod.snd).sum = samples.length ∧
    List.Chain' (fun a b : Option Bool × ℕ => a.1 ≠ b.1) (extract_waveform samples) := by
  constructor
  · have h := waveform_go_sum samples none 0 (fun _ => rfl)
    simpa [extract_waveform] using h
  · exact waveform_go_chain samples none 0
